import Mathlib

/-!
Verification of the HW_Big_Biostat data-analysis scripts.

We give a shallow embedding of the parts of the repository the claims are
about: the outlier-detection module (`src/outlier.py`), the export script
(`scripts/export_data.py`), the categorical-statistics script
(`src/class_stats.py`), the two hypothesis-test scripts
(`src/normality_test.py`, `src/mann_whitney_test.py`) and the shared
input-existence prologue of every analysis script.

Data frames are modelled column-oriented: a frame is a list of
(column name, column values) pairs, a cell is `Option ℚ` where `none`
models a missing value (NaN after numeric coercion).  Statistical library
calls (scipy's `shapiro`, `mannwhitneyu`) are modelled as oracle parameters,
since only their results' post-processing belongs to the repository.
-/

namespace BioStat

attribute [local semireducible] Rat.add Rat.sub Rat.mul Rat.inv

/-- A cell of a data table: `none` models a missing value (NaN). -/
abbrev Cell := Option ℚ

/-- A column of a data table. -/
abbrev Col := List Cell

/-- A data frame, column-oriented: list of (column name, values) pairs. -/
abbrev Frame := List (String × Col)

/-- `df[c]`: the values of column `c` (first matching name), `[]` if absent. -/
def getCol (df : Frame) (c : String) : Col :=
  match df.find? (fun p => p.1 == c) with
  | some p => p.2
  | none => []

/-- `c in df.columns`. -/
def hasCol (df : Frame) (c : String) : Bool :=
  df.any (fun p => p.1 == c)

/-- `df[c] = v` in pandas: replace the column in place if present, else
append it at the end. -/
def setCol (df : Frame) (c : String) (v : Col) : Frame :=
  if hasCol df c then df.map (fun p => if p.1 == c then (c, v) else p)
  else df ++ [(c, v)]

/-- The number of rows of a frame (the length of its first column). -/
def nRows (df : Frame) : Nat :=
  match df with
  | [] => 0
  | p :: _ => p.2.length

/-- Rectangularity: every column has the same length. -/
def Rect (df : Frame) : Prop :=
  ∀ p ∈ df, p.2.length = nRows df

instance rectDecidable (df : Frame) : Decidable (Rect df) :=
  decidable_of_iff (∀ p ∈ df, p.2.length = nRows df) Iff.rfl

/-! ### outlier.py -/

/-- `DEFAULT_CONTINUOUS` from `src/outlier.py`. -/
def DEFAULT_CONTINUOUS : List String := ["BMI", "MentHlth", "PhysHlth"]

/-- numpy/pandas linear-interpolation quantile on a sorted non-empty list:
position `q * (n - 1)`, linear interpolation between the neighbouring
order statistics. -/
def quantileSorted (xs : List ℚ) (q : ℚ) : ℚ :=
  let n := xs.length
  let pos := q * ((n : ℚ) - 1)
  let i := pos.floor.toNat
  let frac := pos - (pos.floor : ℚ)
  let a := xs.getD i 0
  let b := xs.getD (min (i + 1) (n - 1)) a
  a + frac * (b - a)

/-- `Series.quantile(q)`: drop NaNs, sort, interpolate; NaN (`none`) when
no non-missing value remains. -/
def seriesQuantile (s : Col) (q : ℚ) : Option ℚ :=
  let xs := List.insertionSort (· ≤ ·) (s.filterMap id)
  if xs.isEmpty then none else some (quantileSorted xs q)

/-- `iqr = q3 - q1` (NaN-propagating): `none` when the quantiles are NaN. -/
def iqrOf (s : Col) : Option ℚ :=
  match seriesQuantile s (1/4), seriesQuantile s (3/4) with
  | some q1, some q3 => some (q3 - q1)
  | _, _ => none

/-- One iteration of the loop body of `detect_outliers_iqr` on the (already
numerically coerced) column `s`: the boolean mask and the `(lower, upper)`
bounds, where `none` bounds model the `(np.nan, np.nan)` case. -/
def detectCol (s : Col) (k : ℚ) : List Bool × Option (ℚ × ℚ) :=
  match seriesQuantile s (1/4), seriesQuantile s (3/4) with
  | some q1, some q3 =>
    let iqr := q3 - q1
    if iqr = 0 then (s.map (fun _ => false), none)
    else
      let lower := q1 - k * iqr
      let upper := q3 + k * iqr
      (s.map (fun x =>
        match x with
        | none => false
        | some v => decide (v < lower) || decide (v > upper)), some (lower, upper))
  | _, _ => (s.map (fun _ => false), none)

/-- `detect_outliers_iqr(df, cols, k)`: per-column masks and bounds. -/
def detect_outliers_iqr (df : Frame) (cols : List String) (k : ℚ) :
    List (String × List Bool) × List (String × Option (ℚ × ℚ)) :=
  (cols.map (fun c => (c, (detectCol (getCol df c) k).1)),
   cols.map (fun c => (c, (detectCol (getCol df c) k).2)))

/-- Looking up a key produced by mapping a function over a list of keys. -/
theorem lookup_map_self {β : Type} (f : String → β) (cols : List String) (c : String)
    (hc : c ∈ cols) :
    (cols.map (fun x => (x, f x))).lookup c = some (f c) := by
  induction cols with
  | nil => cases hc
  | cons x xs ih =>
    rcases List.mem_cons.mp hc with h | h
    · subst h; simp [List.lookup]
    · by_cases hcx : c = x
      · subst hcx; simp [List.lookup]
      · have hbeq : (c == x) = false := by simp [hcx]
        simp [List.lookup, hbeq, ih h]

/-- The mask produced by `detectCol` is a pointwise map of the column, and a
missing cell is never flagged. -/
theorem detectCol_mask_shape (s : Col) (k : ℚ) :
    ∃ g : Cell → Bool, (detectCol s k).1 = s.map g ∧ g none = false := by
  unfold detectCol
  rcases seriesQuantile s (1/4) with _ | q1 <;> rcases seriesQuantile s (3/4) with _ | q3
  · exact ⟨fun _ => false, rfl, rfl⟩
  · exact ⟨fun _ => false, rfl, rfl⟩
  · exact ⟨fun _ => false, rfl, rfl⟩
  · by_cases h0 : q3 - q1 = 0
    · exact ⟨fun _ => false, by simp [h0], rfl⟩
    · exact ⟨fun x => match x with
        | none => false
        | some v => decide (v < q1 - k * (q3 - q1)) || decide (v > q3 + k * (q3 - q1)),
        by simp [h0], rfl⟩

/-- `detectCol` in the non-degenerate branch. -/
theorem detectCol_eq_of_quantiles {s : Col} {q1 q3 : ℚ} (k : ℚ)
    (hq1 : seriesQuantile s (1/4) = some q1)
    (hq3 : seriesQuantile s (3/4) = some q3)
    (h0 : q3 - q1 ≠ 0) :
    detectCol s k = (s.map (fun x => match x with
      | none => false
      | some v => decide (v < q1 - k * (q3 - q1)) || decide (v > q3 + k * (q3 - q1))),
      some (q1 - k * (q3 - q1), q3 + k * (q3 - q1))) := by
  unfold detectCol
  rw [hq1, hq3]
  simp [h0]

/-- `detectCol` in the degenerate branch (IQR undefined or zero). -/
theorem detectCol_eq_degenerate {s : Col} (k : ℚ)
    (h : iqrOf s = none ∨ iqrOf s = some 0) :
    detectCol s k = (s.map (fun _ => false), none) := by
  unfold detectCol
  rcases hq1 : seriesQuantile s (1/4) with _ | q1 <;>
    rcases hq3 : seriesQuantile s (3/4) with _ | q3
  · rfl
  · rfl
  · rfl
  · have h0 : q3 - q1 = 0 := by
      unfold iqrOf at h
      rw [hq1, hq3] at h
      simpa using h
    simp [h0]

/-- C1: for every column `c` in `cols`, with `Q1`, `Q3` the 0.25 / 0.75
quantiles of the numerically coerced column and `IQR = Q3 - Q1` well-defined
and nonzero, `detect_outliers_iqr` flags a row's present value as an outlier
iff the value lies strictly outside `[Q1 - k*IQR, Q3 + k*IQR]`; the same rule
with the same `k` applies uniformly to every column. -/
theorem detect_outliers_iqr_flags_iff (df : Frame) (cols : List String) (k : ℚ)
    (c : String) (hc : c ∈ cols) (q1 q3 : ℚ)
    (hq1 : seriesQuantile (getCol df c) (1/4) = some q1)
    (hq3 : seriesQuantile (getCol df c) (3/4) = some q3)
    (hiqr : q3 - q1 ≠ 0) :
    ∃ m, (detect_outliers_iqr df cols k).1.lookup c = some m ∧
      m.length = (getCol df c).length ∧
      ∀ (i : Nat) (v : ℚ), (getCol df c)[i]? = some (some v) →
        (m[i]? = some true ↔
          (v < q1 - k * (q3 - q1) ∨ q3 + k * (q3 - q1) < v)) := by
  refine ⟨(detectCol (getCol df c) k).1, ?_, ?_, ?_⟩
  · exact lookup_map_self (fun x => (detectCol (getCol df x) k).1) cols c hc
  · rw [detectCol_eq_of_quantiles k hq1 hq3 hiqr]
    simp
  · intro i v hv
    rw [detectCol_eq_of_quantiles k hq1 hq3 hiqr]
    simp only [List.getElem?_map, hv, Option.map_some]
    simp

/-- C2: in `detect_outliers_iqr`, a missing value (NaN after coercion) is
never flagged, and when the column's IQR is zero or undefined the whole
column's mask is all-false and its recorded bounds are `(NaN, NaN)`. -/
theorem detect_outliers_iqr_degenerate (df : Frame) (cols : List String)
    (k : ℚ) (c : String) (hc : c ∈ cols) :
    ∃ m bd, (detect_outliers_iqr df cols k).1.lookup c = some m ∧
      (detect_outliers_iqr df cols k).2.lookup c = some bd ∧
      (∀ (i : Nat), (getCol df c)[i]? = some none → m[i]? = some false) ∧
      ((iqrOf (getCol df c) = none ∨ iqrOf (getCol df c) = some 0) →
        ((∀ b ∈ m, b = false) ∧ bd = none)) := by
  refine ⟨(detectCol (getCol df c) k).1, (detectCol (getCol df c) k).2,
    lookup_map_self (fun x => (detectCol (getCol df x) k).1) cols c hc,
    lookup_map_self (fun x => (detectCol (getCol df x) k).2) cols c hc, ?_, ?_⟩
  · intro i hv
    obtain ⟨g, hg, hgnone⟩ := detectCol_mask_shape (getCol df c) k
    rw [hg]
    simp only [List.getElem?_map, hv, Option.map_some, hgnone]
    simp [hgnone]
  · intro hdeg
    rw [detectCol_eq_degenerate k hdeg]
    constructor
    · intro b hb
      simp at hb
      exact hb.2
    · rfl

/-- Witness for C1: a concrete frame where 100 is flagged as a BMI outlier. -/
theorem detect_outliers_iqr_flags_iff_witness :
    ∃ m, (detect_outliers_iqr [("BMI", [some 1, some 2, some 3, some 4, some 100])]
        ["BMI"] (3/2)).1.lookup "BMI" = some m ∧
      m.length = (getCol [("BMI", [some 1, some 2, some 3, some 4, some 100])] "BMI").length ∧
      ∀ (i : Nat) (v : ℚ),
        (getCol [("BMI", [some 1, some 2, some 3, some 4, some 100])] "BMI")[i]? =
          some (some v) →
        (m[i]? = some true ↔
          (v < 2 - (3/2) * (4 - 2) ∨ 4 + (3/2) * (4 - 2) < v)) :=
  detect_outliers_iqr_flags_iff _ _ (3/2) "BMI" (by decide) 2 4
    (by decide) (by decide) (by decide)

/-- Witness for C2: a concrete frame with a missing value and zero IQR. -/
theorem detect_outliers_iqr_degenerate_witness :
    ∃ m bd, (detect_outliers_iqr [("BMI", [some 5, some 5, none])]
        ["BMI"] (3/2)).1.lookup "BMI" = some m ∧
      (detect_outliers_iqr [("BMI", [some 5, some 5, none])]
        ["BMI"] (3/2)).2.lookup "BMI" = some bd ∧
      (∀ (i : Nat), (getCol [("BMI", [some 5, some 5, none])] "BMI")[i]? = some none →
        m[i]? = some false) ∧
      ((iqrOf (getCol [("BMI", [some 5, some 5, none])] "BMI") = none ∨
        iqrOf (getCol [("BMI", [some 5, some 5, none])] "BMI") = some 0) →
        ((∀ b ∈ m, b = false) ∧ bd = none)) :=
  detect_outliers_iqr_degenerate _ ["BMI"] (3/2) "BMI" (by decide)

/-! ### The flagged table of outlier.py's main -/

/-- `m.astype(int)`: a boolean mask as a 0/1 integer column. -/
def maskToIntCol (m : List Bool) : Col :=
  m.map (fun b => some (if b then (1:ℚ) else 0))

/-- The cell of a column at row `i`, read as 0 when missing or out of range
(pandas `sum` skips NaN). -/
def cellAt (col : Col) (i : Nat) : ℚ :=
  (col.getD i none).getD 0

/-- `flagged_df[flag_cols].sum(axis=1)` at row `i`. -/
def rowFlagSum (f0 : Frame) (flagCols : List String) (i : Nat) : ℚ :=
  (flagCols.map (fun n => cellAt (getCol f0 n) i)).sum

/-- The continuous columns found in the input frame. -/
def detectedCols (df : Frame) : List String :=
  DEFAULT_CONTINUOUS.filter (fun c => hasCol df c)

/-- `s.endswith(post)`: the characters of `post` are a suffix of those of `s`. -/
def strEndsWith (s post : String) : Bool :=
  post.data.isSuffixOf s.data

/-- The input frame after the per-column flag assignments
`flagged_df[f"{c}__iqr_outlier"] = m.astype(int)` of `outlier.py`'s `main`. -/
def flagFrame0 (df : Frame) (k : ℚ) : Frame :=
  ((detect_outliers_iqr df (detectedCols df) k).1).foldl
    (fun acc p => setCol acc (p.1 ++ "__iqr_outlier") (maskToIntCol p.2)) df

/-- `flag_cols`: the columns of the flagged frame ending in `__iqr_outlier`. -/
def flagColsOf (df : Frame) (k : ℚ) : List String :=
  ((flagFrame0 df k).map Prod.fst).filter (fun n => strEndsWith n "__iqr_outlier")

/-- The flagged table built by `outlier.py`'s `main`: the input frame, one
0/1 flag column per detected continuous column (written back with pandas
column assignment) and the row-level `__any_outlier_flag` column. -/
def flaggedFrame (df : Frame) (k : ℚ) : Frame :=
  setCol (flagFrame0 df k) "__any_outlier_flag"
    ((List.range (nRows df)).map
      (fun i => some (if 0 < rowFlagSum (flagFrame0 df k) (flagColsOf df k) i
        then (1:ℚ) else 0)))

/-- Assigning a column absent from the frame appends it. -/
theorem setCol_fresh (df : Frame) (c : String) (v : Col)
    (h : ∀ p ∈ df, p.1 ≠ c) : setCol df c v = df ++ [(c, v)] := by
  have hh : hasCol df c = false := by
    unfold hasCol
    rw [List.any_eq_false]
    intro p hp
    simp only [beq_iff_eq]
    exact h p hp
  simp [setCol, hh]

/-- Folding fresh pairwise-distinct column assignments appends them in order. -/
theorem foldl_setCol_fresh :
    ∀ (ps : List (String × Col)) (df : Frame),
      (∀ q ∈ ps, ∀ p ∈ df, p.1 ≠ q.1) → (ps.map Prod.fst).Nodup →
      ps.foldl (fun acc q => setCol acc q.1 q.2) df = df ++ ps := by
  intro ps
  induction ps with
  | nil => intro df _ _; simp
  | cons q qs ih =>
    intro df hfresh hnd
    simp only [List.foldl_cons]
    rw [setCol_fresh df q.1 q.2 (fun p hp => hfresh q (by simp) p hp)]
    have hq : df ++ [(q.1, q.2)] = df ++ [q] := by simp
    rw [hq, ih (df ++ [q]) ?_ ?_]
    · simp
    · intro r hr p hp
      rcases List.mem_append.mp hp with h | h
      · exact hfresh r (List.mem_cons_of_mem _ hr) p h
      · have hpq : p = q := by simpa using h
        subst hpq
        simp only [List.map_cons, List.nodup_cons] at hnd
        intro hcon
        exact hnd.1 (hcon ▸ List.mem_map_of_mem Prod.fst hr)
    · simp only [List.map_cons, List.nodup_cons] at hnd
      exact hnd.2

/-- `getCol` skips a prefix none of whose columns has the requested name. -/
theorem getCol_append_right (df₁ df₂ : Frame) (c : String)
    (h : ∀ p ∈ df₁, p.1 ≠ c) : getCol (df₁ ++ df₂) c = getCol df₂ c := by
  unfold getCol
  rw [List.find?_append, List.find?_eq_none.mpr, Option.none_or]
  intro p hp
  simp only [beq_iff_eq]
  exact h p hp

/-- `getCol` on a frame of keyed pairs with injective keys. -/
theorem getCol_map_keyed (g : String → Col) (key : String → String)
    (cols : List String) (c : String) (hc : c ∈ cols)
    (hinj : ∀ a ∈ cols, ∀ b ∈ cols, key a = key b → a = b) :
    getCol (cols.map (fun x => (key x, g x))) (key c) = g c := by
  induction cols with
  | nil => cases hc
  | cons x xs ih =>
    by_cases hkx : key x = key c
    · have hxc : x = c := hinj x (by simp) c hc hkx
      subst hxc
      unfold getCol
      simp [hkx]
    · have hcx : c ∈ xs := by
        rcases List.mem_cons.mp hc with h | h
        · exact absurd (congrArg key h.symm) hkx
        · exact h
      have hbeq : (key x == key c) = false := by simp [hkx]
      unfold getCol
      simp only [List.map_cons, List.find?_cons, hbeq]
      exact ih hcx (fun a ha b hb => hinj a (List.mem_cons_of_mem _ ha) b
        (List.mem_cons_of_mem _ hb))

/-- Every detected continuous column name carries the flag suffix after
appending it. -/
theorem default_append_endsWith :
    ∀ c ∈ DEFAULT_CONTINUOUS,
      strEndsWith (c ++ "__iqr_outlier") "__iqr_outlier" = true := by
  intro c hc
  fin_cases hc <;> decide

/-- Appending the flag suffix is injective on the detected column names. -/
theorem default_append_inj :
    ∀ a ∈ DEFAULT_CONTINUOUS, ∀ b ∈ DEFAULT_CONTINUOUS,
      a ++ "__iqr_outlier" = b ++ "__iqr_outlier" → a = b := by
  intro a ha b hb
  fin_cases ha <;> fin_cases hb <;> decide

/-- No flag column name equals the row-level flag name. -/
theorem default_append_ne_any :
    ∀ c ∈ DEFAULT_CONTINUOUS, c ++ "__iqr_outlier" ≠ "__any_outlier_flag" := by
  intro c hc
  fin_cases hc <;> decide

/-- Reading a 0/1 flag column. -/
theorem cellAt_maskToIntCol (m : List Bool) (i : Nat) :
    cellAt (maskToIntCol m) i = if m.getD i false then 1 else 0 := by
  unfold cellAt maskToIntCol
  rw [List.getD_eq_getElem?_getD, List.getD_eq_getElem?_getD, List.getElem?_map]
  cases h : m[i]? with
  | none => rfl
  | some b => cases b <;> rfl

/-- A sum of 0/1 indicators is positive iff some indicator fires. -/
theorem sum_indicator_pos_iff (l : List String) (g : String → Bool) :
    (0 < (l.map (fun c => if g c then (1:ℚ) else 0)).sum) ↔ l.any g = true := by
  induction l with
  | nil => simp
  | cons x xs ih =>
    have hnn : 0 ≤ ((xs.map (fun c => if g c then (1:ℚ) else 0)).sum) := by
      apply List.sum_nonneg
      intro q hq
      simp only [List.mem_map] at hq
      obtain ⟨c, _, hc⟩ := hq
      by_cases h : g c <;> simp [h] at hc <;> simp [← hc]
    cases hgx : g x
    · simpa [hgx] using ih
    · have hpos : 0 < (1:ℚ) + (xs.map (fun c => if g c then (1:ℚ) else 0)).sum := by
        linarith
      simp [hgx, hpos]

/-- A present column is one of the frame's entries. -/
theorem getCol_mem (df : Frame) (c : String) (h : hasCol df c = true) :
    ∃ p ∈ df, p.1 = c ∧ getCol df c = p.2 := by
  unfold hasCol at h
  rw [List.any_eq_true] at h
  obtain ⟨p, hp, hpc⟩ := h
  unfold getCol
  cases hfind : df.find? (fun q => q.1 == c) with
  | none =>
    rw [List.find?_eq_none] at hfind
    exact absurd hpc (hfind p hp)
  | some q =>
    exact ⟨q, List.mem_of_find?_eq_some hfind,
      by simpa using List.find?_some hfind, rfl⟩

/-- C9 (amended): provided no input column name ends in `__iqr_outlier` and
none is named `__any_outlier_flag`, the flagged table is the input table with
every column and row position unchanged, followed by one 0/1 flag column
`<col>__iqr_outlier` per detected continuous column, followed by the
`__any_outlier_flag` column, which is 1 in a row exactly when at least one
per-column flag of that row is 1. -/
theorem flaggedFrame_spec (df : Frame) (k : ℚ)
    (hrect : Rect df)
    (h1 : ∀ p ∈ df, strEndsWith p.1 "__iqr_outlier" = false)
    (h2 : ∀ p ∈ df, p.1 ≠ "__any_outlier_flag") :
    flaggedFrame df k =
      df ++ (detectedCols df).map (fun c =>
          (c ++ "__iqr_outlier", maskToIntCol (detectCol (getCol df c) k).1))
        ++ [("__any_outlier_flag",
             (List.range (nRows df)).map (fun i =>
               some (if (detectedCols df).any
                   (fun c => ((detectCol (getCol df c) k).1).getD i false)
                 then (1:ℚ) else 0)))] := by
  have hsub : ∀ c ∈ detectedCols df, c ∈ DEFAULT_CONTINUOUS :=
    fun c hc => (List.mem_filter.mp hc).1
  have hnodupcols : (detectedCols df).Nodup :=
    List.Nodup.filter _ (by decide)
  have hfresh : ∀ q ∈ (detectedCols df).map (fun c =>
      (c ++ "__iqr_outlier", maskToIntCol (detectCol (getCol df c) k).1)),
      ∀ p ∈ df, p.1 ≠ q.1 := by
    intro q hq p hp
    obtain ⟨c, hc, rfl⟩ := List.mem_map.mp hq
    intro hcon
    have hf := h1 p hp
    rw [hcon] at hf
    rw [default_append_endsWith c (hsub c hc)] at hf
    cases hf
  have hnodupflag : (((detectedCols df).map (fun c =>
      (c ++ "__iqr_outlier", maskToIntCol (detectCol (getCol df c) k).1))).map
        Prod.fst).Nodup := by
    rw [List.map_map]
    exact List.Nodup.map_on
      (fun a ha b hb hab =>
        default_append_inj a (hsub a ha) b (hsub b hb) hab) hnodupcols
  have hf0 : flagFrame0 df k
      = df ++ (detectedCols df).map (fun c =>
          (c ++ "__iqr_outlier", maskToIntCol (detectCol (getCol df c) k).1)) := by
    have hmasks : (detect_outliers_iqr df (detectedCols df) k).1
        = (detectedCols df).map (fun c => (c, (detectCol (getCol df c) k).1)) := rfl
    unfold flagFrame0
    rw [hmasks, List.foldl_map]
    have hff := foldl_setCol_fresh ((detectedCols df).map (fun c =>
      (c ++ "__iqr_outlier", maskToIntCol (detectCol (getCol df c) k).1))) df
      hfresh hnodupflag
    rw [List.foldl_map] at hff
    exact hff
  have hflagcols : ((df ++ (detectedCols df).map (fun c =>
        (c ++ "__iqr_outlier", maskToIntCol (detectCol (getCol df c) k).1))).map
          Prod.fst).filter (fun n => strEndsWith n "__iqr_outlier")
      = (detectedCols df).map (fun c => c ++ "__iqr_outlier") := by
    rw [List.map_append, List.filter_append]
    have hd : (df.map Prod.fst).filter (fun n => strEndsWith n "__iqr_outlier")
        = [] := by
      rw [List.filter_eq_nil_iff]
      intro a ha
      obtain ⟨p, hp, rfl⟩ := List.mem_map.mp ha
      simp [h1 p hp]
    have hflagnames : (((detectedCols df).map (fun c =>
        (c ++ "__iqr_outlier", maskToIntCol (detectCol (getCol df c) k).1))).map
          Prod.fst)
        = (detectedCols df).map (fun c => c ++ "__iqr_outlier") := by
      rw [List.map_map]
      rfl
    rw [hd, hflagnames, List.filter_eq_self.mpr, List.nil_append]
    intro a ha
    obtain ⟨c, hc, rfl⟩ := List.mem_map.mp ha
    exact default_append_endsWith c (hsub c hc)
  have hget : ∀ c ∈ detectedCols df,
      getCol (df ++ (detectedCols df).map (fun c =>
        (c ++ "__iqr_outlier", maskToIntCol (detectCol (getCol df c) k).1)))
        (c ++ "__iqr_outlier")
      = maskToIntCol (detectCol (getCol df c) k).1 := by
    intro c hc
    rw [getCol_append_right]
    · exact getCol_map_keyed (fun x => maskToIntCol (detectCol (getCol df x) k).1)
        (fun x => x ++ "__iqr_outlier") (detectedCols df) c hc
        (fun a ha b hb hab =>
          default_append_inj a (hsub a ha) b (hsub b hb) hab)
    · intro p hp
      exact hfresh _ (List.mem_map_of_mem _ hc) p hp
  have hlen : ∀ c ∈ detectedCols df,
      ((detectCol (getCol df c) k).1).length = nRows df := by
    intro c hc
    obtain ⟨g, hg, -⟩ := detectCol_mask_shape (getCol df c) k
    rw [hg, List.length_map]
    obtain ⟨p, hp, -, hcol⟩ := getCol_mem df c (List.mem_filter.mp hc).2
    rw [hcol]
    exact hrect p hp
  have hany : ∀ i : Nat,
      (if 0 < rowFlagSum (df ++ (detectedCols df).map (fun c =>
          (c ++ "__iqr_outlier", maskToIntCol (detectCol (getCol df c) k).1)))
          ((detectedCols df).map (fun c => c ++ "__iqr_outlier")) i
        then (1:ℚ) else 0)
      = (if (detectedCols df).any
            (fun c => ((detectCol (getCol df c) k).1).getD i false)
          then (1:ℚ) else 0) := by
    intro i
    have hsum : rowFlagSum (df ++ (detectedCols df).map (fun c =>
          (c ++ "__iqr_outlier", maskToIntCol (detectCol (getCol df c) k).1)))
          ((detectedCols df).map (fun c => c ++ "__iqr_outlier")) i
        = ((detectedCols df).map (fun c =>
            if ((detectCol (getCol df c) k).1).getD i false
            then (1:ℚ) else 0)).sum := by
      unfold rowFlagSum
      rw [List.map_map]
      apply congrArg List.sum
      apply List.map_congr_left
      intro c hc
      show cellAt (getCol (df ++ (detectedCols df).map (fun c =>
          (c ++ "__iqr_outlier", maskToIntCol (detectCol (getCol df c) k).1)))
          (c ++ "__iqr_outlier")) i = _
      rw [hget c hc, cellAt_maskToIntCol]
    have hiff := sum_indicator_pos_iff (detectedCols df)
      (fun c => ((detectCol (getCol df c) k).1).getD i false)
    rw [hsum]
    by_cases hc : (detectedCols df).any
        (fun c => ((detectCol (getCol df c) k).1).getD i false) = true
    · rw [if_pos (hiff.mpr hc), if_pos hc]
    · rw [if_neg (fun hpos => hc (hiff.mp hpos)), if_neg hc]
  unfold flaggedFrame flagColsOf
  rw [hf0, hflagcols]
  rw [setCol_fresh]
  · simp only [hany]
  · intro p hp
    rcases List.mem_append.mp hp with h | h
    · exact h2 p h
    · obtain ⟨c, hc, rfl⟩ := List.mem_map.mp h
      exact default_append_ne_any c (hsub c hc)

/-- Witness for C9 (amended) at a concrete two-column frame. -/
theorem flaggedFrame_spec_witness :
    flaggedFrame [("BMI", [some 1, some 2, some 3, some 4, some 100]),
        ("Age", [some 1, none, some 2, some 3, some 4])] (3/2) =
      [("BMI", [some 1, some 2, some 3, some 4, some 100]),
        ("Age", [some 1, none, some 2, some 3, some 4])]
        ++ (detectedCols [("BMI", [some 1, some 2, some 3, some 4, some 100]),
              ("Age", [some 1, none, some 2, some 3, some 4])]).map (fun c =>
            (c ++ "__iqr_outlier", maskToIntCol (detectCol
              (getCol [("BMI", [some 1, some 2, some 3, some 4, some 100]),
                ("Age", [some 1, none, some 2, some 3, some 4])] c) (3/2)).1))
        ++ [("__any_outlier_flag",
             (List.range (nRows [("BMI", [some 1, some 2, some 3, some 4, some 100]),
                ("Age", [some 1, none, some 2, some 3, some 4])])).map (fun i =>
               some (if (detectedCols [("BMI", [some 1, some 2, some 3, some 4, some 100]),
                    ("Age", [some 1, none, some 2, some 3, some 4])]).any
                   (fun c => ((detectCol (getCol
                     [("BMI", [some 1, some 2, some 3, some 4, some 100]),
                       ("Age", [some 1, none, some 2, some 3, some 4])] c) (3/2)).1).getD i false)
                 then (1:ℚ) else 0)))] :=
  flaggedFrame_spec _ (3/2) (by decide) (by decide) (by decide)

/-- Counterexample for C9 as stated: when the input already has a column named
`BMI__iqr_outlier`, the flagged table does not keep that original column's
values (the flag assignment overwrites it). -/
theorem flaggedFrame_counterexample :
    getCol (flaggedFrame [("BMI", [some 1, some 2, some 3, some 4, some 100]),
        ("BMI__iqr_outlier", [some 7, some 7, some 7, some 7, some 7])] (3/2))
      "BMI__iqr_outlier" ≠ [some 7, some 7, some 7, some 7, some 7] := by
  decide

/-! ### summarize_masks and masks_to_long_indices -/

/-- A row of `outliers_summary.csv`; `pct_outliers` is `none` (NaN) when the
mask is empty (the mean of an empty series). -/
structure SummaryRow where
  method : String
  column : String
  n_outliers : Nat
  pct_outliers : Option ℚ
deriving DecidableEq

/-- The rows built by `summarize_masks` before sorting. -/
def summaryRowsRaw (groups : List (String × List (String × List Bool))) :
    List SummaryRow :=
  groups.flatMap (fun g => g.2.map (fun p =>
    ⟨g.1, p.1, p.2.count true,
      if p.2.length = 0 then none
      else some ((p.2.count true : ℚ) / (p.2.length : ℚ) * 100)⟩))

/-- `sort_values(["column", "method"])` order on summary rows. -/
def summaryLE (a b : SummaryRow) : Prop :=
  a.column < b.column ∨ (a.column = b.column ∧ a.method ≤ b.method)

instance summaryLE_dec : DecidableRel summaryLE := fun a b => by
  unfold summaryLE
  infer_instance

/-- `summarize_masks`: one row per (method, column), sorted by column then
method. -/
def summarize_masks (groups : List (String × List (String × List Bool))) :
    List SummaryRow :=
  List.insertionSort summaryLE (summaryRowsRaw groups)

/-- A row of `outliers_indices.csv`. -/
structure LongRow where
  method : String
  column : String
  row_index : Nat
deriving DecidableEq

/-- `m[m].index.tolist()`: the positions at which the mask is true. -/
def trueIndices (m : List Bool) : List Nat :=
  ((m.enum).filter (fun p => p.2)).map (fun p => p.1)

/-- `masks_to_long_indices`: one row per flagged (method, column, index). -/
def masks_to_long_indices (groups : List (String × List (String × List Bool))) :
    List LongRow :=
  groups.flatMap (fun g => g.2.flatMap (fun p =>
    (trueIndices p.2).map (fun i => ⟨g.1, p.1, i⟩)))

theorem length_filter_enumFrom (m : List Bool) : ∀ k : Nat,
    ((List.enumFrom k m).filter (fun p => p.2)).length = m.count true := by
  induction m with
  | nil => intro k; rfl
  | cons b bs ih =>
    intro k
    rw [List.enumFrom_cons, List.filter_cons]
    cases b
    · simpa [List.count_cons] using ih (k + 1)
    · simpa [List.count_cons] using ih (k + 1)

/-- The long-form table has one row per flagged mask entry. -/
theorem trueIndices_length (m : List Bool) :
    (trueIndices m).length = m.count true := by
  unfold trueIndices
  rw [List.length_map]
  exact length_filter_enumFrom m 0

theorem countP_flatMap {α β : Type} (p : β → Bool) (f : α → List β) :
    ∀ l : List α, (l.flatMap f).countP p = (l.map (fun x => (f x).countP p)).sum := by
  intro l
  induction l with
  | nil => rfl
  | cons x xs ih => simp [List.flatMap_cons, List.countP_append, ih]

theorem sum_map_ite_eq_of_nodup (cols : List String) (c : String) (F : String → Nat)
    (hnd : cols.Nodup) (hc : c ∈ cols) :
    (cols.map (fun x => if x = c then F x else 0)).sum = F c := by
  induction cols with
  | nil => cases hc
  | cons x xs ih =>
    rw [List.map_cons, List.sum_cons]
    simp only [List.nodup_cons] at hnd
    rcases List.mem_cons.mp hc with hcx | hcx
    · subst hcx
      rw [if_pos rfl]
      have hzero : (xs.map (fun y => if y = c then F y else 0)).sum = 0 := by
        apply List.sum_eq_zero
        intro q hq
        obtain ⟨y, hy, hyq⟩ := List.mem_map.mp hq
        have hyc : y ≠ c := by
          intro h
          exact hnd.1 (h ▸ hy)
        rw [if_neg hyc] at hyq
        exact hyq.symm
      rw [hzero, Nat.add_zero]
    · have hxc : x ≠ c := fun h => hnd.1 (h ▸ hcx)
      rw [if_neg hxc, Nat.zero_add]
      exact ih hnd.2 hcx

/-- The per-column sum of a 0/1 flag column counts the flagged entries. -/
theorem sum_maskToIntCol (m : List Bool) :
    ((maskToIntCol m).map (fun x => x.getD 0)).sum = (m.count true : ℚ) := by
  induction m with
  | nil => simp [maskToIntCol]
  | cons b bs ih =>
    have hstep : (maskToIntCol (b :: bs)).map (fun x => x.getD 0)
        = (if b then (1:ℚ) else 0) :: (maskToIntCol bs).map (fun x => x.getD 0) := by
      cases b <;> rfl
    rw [hstep, List.sum_cons, ih, List.count_cons]
    cases b <;> simp [add_comm]

theorem getCol_cons (p : String × Col) (ps : Frame) (c : String) :
    getCol (p :: ps) c = if p.1 == c then p.2 else getCol ps c := by
  unfold getCol
  rw [List.find?_cons]
  cases h : (p.1 == c) <;> simp [h]

theorem getCol_map_setCol_ne (df : Frame) (c c' : String) (v : Col) (h : c' ≠ c) :
    getCol (df.map (fun p => if p.1 == c then (c, v) else p)) c' = getCol df c' := by
  induction df with
  | nil => rfl
  | cons p ps ih =>
    rw [List.map_cons, getCol_cons, getCol_cons]
    by_cases hpc : (p.1 == c) = true
    · have hpceq : p.1 = c := by simpa using hpc
      have hcc' : (c == c') = false := by
        simp only [beq_eq_false_iff_ne]
        exact fun hcc => h hcc.symm
      rw [if_pos hpc]
      simp only [hpceq, hcc', Bool.false_eq_true, if_false]
      exact ih
    · rw [if_neg hpc]
      by_cases hp' : (p.1 == c') = true
      · rw [if_pos hp', if_pos hp']
      · rw [if_neg hp', if_neg hp', ih]

theorem getCol_setCol_same (df : Frame) (c : String) (v : Col) :
    getCol (setCol df c v) c = v := by
  unfold setCol
  by_cases h : hasCol df c = true
  · rw [if_pos h]
    induction df with
    | nil => simp [hasCol] at h
    | cons p ps ih =>
      rw [List.map_cons, getCol_cons]
      by_cases hpc : (p.1 == c) = true
      · rw [if_pos hpc]
        simp
      · rw [if_neg hpc]
        have hps : hasCol ps c = true := by
          unfold hasCol at h ⊢
          rw [List.any_cons] at h
          rcases Bool.or_eq_true_iff.mp h with h1 | h1
          · exact absurd h1 hpc
          · exact h1
        simp only [if_neg hpc]
        exact ih hps
  · rw [if_neg h]
    have hfalse : hasCol df c = false := Bool.eq_false_iff.mpr h
    have hne : ∀ p ∈ df, p.1 ≠ c := by
      intro p hp
      unfold hasCol at hfalse
      rw [List.any_eq_false] at hfalse
      simpa using hfalse p hp
    rw [getCol_append_right df [(c, v)] c hne]
    simp [getCol]

theorem getCol_setCol_ne (df : Frame) (c c' : String) (v : Col) (h : c' ≠ c) :
    getCol (setCol df c v) c' = getCol df c' := by
  unfold setCol
  by_cases hh : hasCol df c = true
  · rw [if_pos hh]
    exact getCol_map_setCol_ne df c c' v h
  · rw [if_neg hh]
    unfold getCol
    rw [List.find?_append]
    have hnone : List.find? (fun q => q.1 == c') [(c, v)] = none := by
      have : (c == c') = false := by
        simp only [beq_eq_false_iff_ne]
        exact fun hcc => h hcc.symm
      simp [List.find?, this]
    rw [hnone, Option.or_none]

theorem getCol_foldl_setCol_of_ne {α : Type} (key : α → String) (val : α → Col) :
    ∀ (l : List α) (df : Frame) (c : String), (∀ x ∈ l, key x ≠ c) →
      getCol (l.foldl (fun acc x => setCol acc (key x) (val x)) df) c = getCol df c := by
  intro l
  induction l with
  | nil => intro df c _; rfl
  | cons x xs ih =>
    intro df c hne
    rw [List.foldl_cons]
    rw [ih (setCol df (key x) (val x)) c
      (fun y hy => hne y (List.mem_cons_of_mem _ hy))]
    exact getCol_setCol_ne df (key x) c (val x)
      (fun hcc => hne x (List.mem_cons_self x xs) hcc.symm)

theorem getCol_foldl_setCol_keyed {α : Type} [DecidableEq α]
    (key : α → String) (val : α → Col) :
    ∀ (l : List α) (df : Frame) (c : α), c ∈ l →
      (∀ a ∈ l, ∀ b ∈ l, key a = key b → a = b) → l.Nodup →
      getCol (l.foldl (fun acc x => setCol acc (key x) (val x)) df) (key c) = val c := by
  intro l
  induction l with
  | nil => intro df c hc; cases hc
  | cons x xs ih =>
    intro df c hc hinj hnd
    rw [List.foldl_cons]
    simp only [List.nodup_cons] at hnd
    rcases List.mem_cons.mp hc with hcx | hcx
    · subst hcx
      rw [getCol_foldl_setCol_of_ne key val xs (setCol df (key c) (val c)) (key c) ?_]
      · exact getCol_setCol_same df (key c) (val c)
      · intro y hy hkey
        have hyc : y = c := hinj y (List.mem_cons_of_mem _ hy) c
          (List.mem_cons_self c xs) hkey
        exact hnd.1 (hyc ▸ hy)
    · exact ih (setCol df (key x) (val x)) c hcx
        (fun a ha b hb => hinj a (List.mem_cons_of_mem _ ha) b
          (List.mem_cons_of_mem _ hb)) hnd.2

/-- The flag column of the flagged table always holds the 0/1 mask, whatever
the other columns of the input were. -/
theorem getCol_flaggedFrame_flag (df : Frame) (k : ℚ) (c : String)
    (hc : c ∈ detectedCols df) :
    getCol (flaggedFrame df k) (c ++ "__iqr_outlier")
      = maskToIntCol (detectCol (getCol df c) k).1 := by
  have hsub : ∀ x ∈ detectedCols df, x ∈ DEFAULT_CONTINUOUS :=
    fun x hx => (List.mem_filter.mp hx).1
  unfold flaggedFrame
  rw [getCol_setCol_ne _ _ _ _ (default_append_ne_any c (hsub c hc))]
  unfold flagFrame0
  have hmasks : (detect_outliers_iqr df (detectedCols df) k).1
      = (detectedCols df).map (fun x => (x, (detectCol (getCol df x) k).1)) := rfl
  rw [hmasks, List.foldl_map]
  exact getCol_foldl_setCol_keyed (fun x => x ++ "__iqr_outlier")
    (fun x => maskToIntCol (detectCol (getCol df x) k).1) (detectedCols df) df c hc
    (fun a ha b hb hab => default_append_inj a (hsub a ha) b (hsub b hb) hab)
    (List.Nodup.filter _ (by decide))

/-- C10: the three outlier outputs are mutually consistent: for each
(method, column) pair of the single `iqr_outlier` method group, the summary
table has exactly one row, whose `n_outliers` equals the number of rows with
that pair in the long-form indices table, equals the number of true entries
in that column's mask, and equals the sum of the column's 0/1 flag in the
flagged table. -/
theorem outlier_outputs_consistent (df : Frame) (k : ℚ) (c : String)
    (hc : c ∈ detectedCols df) :
    ((summarize_masks
        [("iqr_outlier", (detect_outliers_iqr df (detectedCols df) k).1)]).countP
          (fun r => r.method == "iqr_outlier" && r.column == c) = 1) ∧
    (∀ r ∈ summarize_masks
        [("iqr_outlier", (detect_outliers_iqr df (detectedCols df) k).1)],
        r.method = "iqr_outlier" → r.column = c →
          r.n_outliers = ((detectCol (getCol df c) k).1).count true) ∧
    ((masks_to_long_indices
        [("iqr_outlier", (detect_outliers_iqr df (detectedCols df) k).1)]).countP
          (fun r => r.method == "iqr_outlier" && r.column == c)
      = ((detectCol (getCol df c) k).1).count true) ∧
    (((getCol (flaggedFrame df k) (c ++ "__iqr_outlier")).map
        (fun x => x.getD 0)).sum
      = (((detectCol (getCol df c) k).1).count true : ℚ)) := by
  have hnodup : (detectedCols df).Nodup := List.Nodup.filter _ (by decide)
  have hmasks : (detect_outliers_iqr df (detectedCols df) k).1
      = (detectedCols df).map (fun x => (x, (detectCol (getCol df x) k).1)) := rfl
  have hraw : summaryRowsRaw
      [("iqr_outlier", (detect_outliers_iqr df (detectedCols df) k).1)]
      = (detectedCols df).map (fun x =>
          (⟨"iqr_outlier", x, ((detectCol (getCol df x) k).1).count true,
            if ((detectCol (getCol df x) k).1).length = 0 then none
            else some ((((detectCol (getCol df x) k).1).count true : ℚ)
              / (((detectCol (getCol df x) k).1).length : ℚ) * 100)⟩ : SummaryRow)) := by
    unfold summaryRowsRaw
    rw [List.flatMap_cons, List.flatMap_nil, List.append_nil, hmasks, List.map_map]
    rfl
  have hperm := List.perm_insertionSort summaryLE (summaryRowsRaw
    [("iqr_outlier", (detect_outliers_iqr df (detectedCols df) k).1)])
  refine ⟨?_, ?_, ?_, ?_⟩
  · unfold summarize_masks
    rw [hperm.countP_eq, hraw, List.countP_map]
    have hpt : ∀ x ∈ detectedCols df,
        ((fun r : SummaryRow => r.method == "iqr_outlier" && r.column == c) ∘
          (fun x => (⟨"iqr_outlier", x, ((detectCol (getCol df x) k).1).count true,
            if ((detectCol (getCol df x) k).1).length = 0 then none
            else some ((((detectCol (getCol df x) k).1).count true : ℚ)
              / (((detectCol (getCol df x) k).1).length : ℚ) * 100)⟩ : SummaryRow))) x
          = (x == c) := by
      intro x _
      simp [Function.comp]
    rw [List.countP_congr (fun x hx => by rw [hpt x hx])]
    exact List.count_eq_one_of_mem hnodup hc
  · intro r hr hmeth hcol
    have hr' := (hperm.mem_iff).mp hr
    rw [hraw] at hr'
    obtain ⟨x, hx, hxr⟩ := List.mem_map.mp hr'
    have hxc : x = c := by
      rw [← hxr] at hcol
      exact hcol
    subst hxc
    rw [← hxr]
  · unfold masks_to_long_indices
    rw [List.flatMap_cons, List.flatMap_nil, List.append_nil, hmasks]
    rw [countP_flatMap, List.map_map]
    have hinner : ∀ x ∈ detectedCols df,
        ((fun q : String × List Bool =>
            ((trueIndices q.2).map
              (fun i => (⟨"iqr_outlier", q.1, i⟩ : LongRow))).countP
                (fun r => r.method == "iqr_outlier" && r.column == c)) ∘
          (fun x => (x, (detectCol (getCol df x) k).1))) x
        = if x = c then ((detectCol (getCol df x) k).1).count true else 0 := by
      intro x _
      simp only [Function.comp]
      rw [List.countP_map]
      by_cases hxc : x = c
      · subst hxc
        rw [if_pos rfl]
        have hct : (trueIndices ((detectCol (getCol df x) k).1)).countP
            ((fun r : LongRow => r.method == "iqr_outlier" && r.column == x) ∘
              (fun i => (⟨"iqr_outlier", x, i⟩ : LongRow)))
            = (trueIndices ((detectCol (getCol df x) k).1)).countP
                (fun i => true) :=
          List.countP_congr (fun i _ => by simp [Function.comp])
        rw [hct, List.countP_true]
        exact trueIndices_length _
      · rw [if_neg hxc]
        have hct : (trueIndices ((detectCol (getCol df x) k).1)).countP
            ((fun r : LongRow => r.method == "iqr_outlier" && r.column == c) ∘
              (fun i => (⟨"iqr_outlier", x, i⟩ : LongRow)))
            = (trueIndices ((detectCol (getCol df x) k).1)).countP
                (fun i => false) :=
          List.countP_congr (fun i _ => by simp [Function.comp, hxc])
        rw [hct, List.countP_false]
        rfl
    rw [List.map_congr_left hinner]
    exact sum_map_ite_eq_of_nodup (detectedCols df) c
      (fun x => ((detectCol (getCol df x) k).1).count true) hnodup hc
  · rw [getCol_flaggedFrame_flag df k c hc, sum_maskToIntCol]

/-- Witness for C10 at a concrete frame. -/
theorem outlier_outputs_consistent_witness :
    ((summarize_masks
        [("iqr_outlier", (detect_outliers_iqr
          [("BMI", [some 1, some 2, some 3, some 4, some 100])]
          (detectedCols [("BMI", [some 1, some 2, some 3, some 4, some 100])])
          (3/2)).1)]).countP
          (fun r => r.method == "iqr_outlier" && r.column == "BMI") = 1) ∧
    (∀ r ∈ summarize_masks
        [("iqr_outlier", (detect_outliers_iqr
          [("BMI", [some 1, some 2, some 3, some 4, some 100])]
          (detectedCols [("BMI", [some 1, some 2, some 3, some 4, some 100])])
          (3/2)).1)],
        r.method = "iqr_outlier" → r.column = "BMI" →
          r.n_outliers = ((detectCol (getCol
            [("BMI", [some 1, some 2, some 3, some 4, some 100])] "BMI")
            (3/2)).1).count true) ∧
    ((masks_to_long_indices
        [("iqr_outlier", (detect_outliers_iqr
          [("BMI", [some 1, some 2, some 3, some 4, some 100])]
          (detectedCols [("BMI", [some 1, some 2, some 3, some 4, some 100])])
          (3/2)).1)]).countP
          (fun r => r.method == "iqr_outlier" && r.column == "BMI")
      = ((detectCol (getCol
          [("BMI", [some 1, some 2, some 3, some 4, some 100])] "BMI")
          (3/2)).1).count true) ∧
    (((getCol (flaggedFrame
        [("BMI", [some 1, some 2, some 3, some 4, some 100])] (3/2))
        ("BMI" ++ "__iqr_outlier")).map (fun x => x.getD 0)).sum
      = (((detectCol (getCol
          [("BMI", [some 1, some 2, some 3, some 4, some 100])] "BMI")
          (3/2)).1).count true : ℚ)) :=
  outlier_outputs_consistent
    [("BMI", [some 1, some 2, some 3, some 4, some 100])] (3/2) "BMI" (by decide)

/-! ### scripts/export_data.py -/

/-- A table for the export script: column names with opaque column data. -/
abbrev Table (α : Type) := List (String × α)

/-- Pandas column assignment on a generic table. -/
def setColT {α : Type} (df : Table α) (c : String) (v : α) : Table α :=
  if df.any (fun p => p.1 == c) then
    df.map (fun p => if p.1 == c then (c, v) else p)
  else df ++ [(c, v)]

/-- The rename step of `export_features_targets`: every target column whose
name appears among the feature columns gets the suffix `_target`. -/
def renameTargets {α : Type} (featNames : List String) (targets : Table α) :
    Table α :=
  targets.map (fun p => if p.1 ∈ featNames then (p.1 ++ "_target", p.2) else p)

/-- The combine step: `combined = features.copy()` followed by
`combined[c] = target_df[c]` for every (renamed) target column. -/
def combineFT {α : Type} (features targets : Table α) : Table α :=
  (renameTargets (features.map Prod.fst) targets).foldl
    (fun acc p => setColT acc p.1 p.2) features

/-- The dataset object fetched from ucimlrepo: `ds.data.features` and
`ds.data.targets`, each possibly absent. -/
structure DataObj (α : Type) where
  features : Option (Table α)
  targets : Option (Table α)

structure Dataset (α : Type) where
  data : Option (DataObj α)

/-- The log messages `export_features_targets` can emit. -/
inductive LogMsg
  | noData
  | noFeaturesNoTargets
  | savedFeatures
  | savedTargets
  | renamedColumns
  | savedCombined
  | cannotCombine
deriving DecidableEq

/-- A diagnostic message about a missing source. -/
def isDiagnostic : LogMsg → Bool
  | .noData => true
  | .noFeaturesNoTargets => true
  | .cannotCombine => true
  | _ => false

/-- The files written (as their contents) and the log of a run. -/
structure ExportResult (α : Type) where
  featuresCsv : Option (Table α)
  targetsCsv : Option (Table α)
  combinedCsv : Option (Table α)
  logs : List LogMsg

/-- `export_features_targets(ds, outdir)`: write features.csv, targets.csv
and combined.csv when their sources exist, logging and skipping otherwise;
the function always returns normally. -/
def export_features_targets {α : Type} (ds : Dataset α) : ExportResult α :=
  match ds.data with
  | none => ⟨none, none, none, [.noData]⟩
  | some d =>
    match d.features, d.targets with
    | none, none => ⟨none, none, none, [.noFeaturesNoTargets]⟩
    | some f, none => ⟨some f, none, none, [.savedFeatures, .cannotCombine]⟩
    | none, some t => ⟨none, some t, none, [.savedTargets, .cannotCombine]⟩
    | some f, some t =>
      ⟨some f, some t, some (combineFT f t),
        [.savedFeatures, .savedTargets] ++
          (if t.any (fun p => p.1 ∈ f.map Prod.fst)
            then [.renamedColumns] else []) ++ [.savedCombined]⟩

def featAbsent {α : Type} (ds : Dataset α) : Bool :=
  match ds.data with
  | none => true
  | some d => d.features.isNone

def targAbsent {α : Type} (ds : Dataset α) : Bool :=
  match ds.data with
  | none => true
  | some d => d.targets.isNone

theorem setColT_fresh {α : Type} (df : Table α) (c : String) (v : α)
    (h : ∀ p ∈ df, p.1 ≠ c) : setColT df c v = df ++ [(c, v)] := by
  have hh : df.any (fun p => p.1 == c) = false := by
    rw [List.any_eq_false]
    intro p hp
    simp only [beq_iff_eq]
    exact h p hp
  simp [setColT, hh]

theorem foldl_setColT_fresh {α : Type} :
    ∀ (ps df : Table α),
      (∀ q ∈ ps, ∀ p ∈ df, p.1 ≠ q.1) → (ps.map Prod.fst).Nodup →
      ps.foldl (fun acc q => setColT acc q.1 q.2) df = df ++ ps := by
  intro ps
  induction ps with
  | nil => intro df _ _; simp
  | cons q qs ih =>
    intro df hfresh hnd
    simp only [List.foldl_cons]
    rw [setColT_fresh df q.1 q.2 (fun p hp => hfresh q (by simp) p hp)]
    have hq : df ++ [(q.1, q.2)] = df ++ [q] := by simp
    rw [hq, ih (df ++ [q]) ?_ ?_]
    · simp
    · intro r hr p hp
      rcases List.mem_append.mp hp with h | h
      · exact hfresh r (List.mem_cons_of_mem _ hr) p h
      · have hpq : p = q := by simpa using h
        subst hpq
        simp only [List.map_cons, List.nodup_cons] at hnd
        intro hcon
        exact hnd.1 (hcon ▸ List.mem_map_of_mem Prod.fst hr)
    · simp only [List.map_cons, List.nodup_cons] at hnd
      exact hnd.2

/-- C3 (amended): provided the renamed target column names are pairwise
distinct and none of them coincides with a feature column name, the combined
table is every feature column unchanged followed by every (renamed) target
column; if the feature names were duplicate-free, the combined table has no
duplicate column names. -/
theorem combineFT_spec {α : Type} (features targets : Table α)
    (h1 : ∀ q ∈ renameTargets (features.map Prod.fst) targets,
      ∀ p ∈ features, p.1 ≠ q.1)
    (h2 : ((renameTargets (features.map Prod.fst) targets).map Prod.fst).Nodup) :
    combineFT features targets
      = features ++ renameTargets (features.map Prod.fst) targets ∧
    ((features.map Prod.fst).Nodup →
      ((combineFT features targets).map Prod.fst).Nodup) := by
  have hmain : combineFT features targets
      = features ++ renameTargets (features.map Prod.fst) targets :=
    foldl_setColT_fresh _ features h1 h2
  refine ⟨hmain, ?_⟩
  intro hf
  rw [hmain, List.map_append]
  apply List.Nodup.append hf h2
  intro a ha hb
  obtain ⟨p, hp, hpa⟩ := List.mem_map.mp ha
  obtain ⟨q, hq, hqa⟩ := List.mem_map.mp hb
  exact h1 q hq p hp (hpa.trans hqa.symm)

/-- Counterexample for C3 as stated: a feature column literally named
`A_target` is overwritten by the renamed target column `A`, so the combined
table is not the unchanged features followed by the renamed targets. -/
theorem combineFT_counterexample :
    combineFT [("A", (0:Nat)), ("A_target", 1)] [("A", 2)]
      ≠ [("A", (0:Nat)), ("A_target", 1)]
          ++ renameTargets ([("A", (0:Nat)), ("A_target", 1)].map Prod.fst)
              [("A", 2)] := by
  decide

/-- Witness for C3 (amended) at concrete tables with no name collision. -/
theorem combineFT_spec_witness :
    combineFT [("A", (0:Nat))] [("B", 1)]
      = [("A", (0:Nat))] ++ renameTargets ([("A", (0:Nat))].map Prod.fst) [("B", 1)] ∧
    ((([("A", (0:Nat))] : Table Nat).map Prod.fst).Nodup →
      ((combineFT [("A", (0:Nat))] [("B", 1)]).map Prod.fst).Nodup) :=
  combineFT_spec [("A", (0:Nat))] [("B", 1)] (by decide) (by decide)

/-- C4: every output whose source is absent is skipped (its content is
`none`) with a diagnostic log message; the outputs whose sources are present
are still written; the function is total, so it returns normally in every
case. -/
theorem export_features_targets_skips {α : Type} (ds : Dataset α) :
    ((export_features_targets ds).featuresCsv = none ↔ featAbsent ds = true) ∧
    ((export_features_targets ds).targetsCsv = none ↔ targAbsent ds = true) ∧
    ((export_features_targets ds).combinedCsv = none ↔
      (featAbsent ds = true ∨ targAbsent ds = true)) ∧
    ((featAbsent ds = true ∨ targAbsent ds = true) →
      ∃ m ∈ (export_features_targets ds).logs, isDiagnostic m = true) := by
  obtain ⟨data⟩ := ds
  cases data with
  | none =>
    refine ⟨by simp [export_features_targets, featAbsent], ?_, ?_, ?_⟩ <;>
      simp [export_features_targets, featAbsent, targAbsent, isDiagnostic]
  | some d =>
    obtain ⟨f, t⟩ := d
    cases f <;> cases t <;>
      refine ⟨?_, ?_, ?_, ?_⟩ <;>
      simp [export_features_targets, featAbsent, targAbsent, isDiagnostic]

/-- Witness for C4 at a concrete dataset with features missing. -/
theorem export_features_targets_skips_witness :
    ((export_features_targets (⟨some ⟨none, some [("A", (1:Nat))]⟩⟩ : Dataset Nat)).featuresCsv
        = none ↔ featAbsent (⟨some ⟨none, some [("A", (1:Nat))]⟩⟩ : Dataset Nat) = true) ∧
    ((export_features_targets (⟨some ⟨none, some [("A", (1:Nat))]⟩⟩ : Dataset Nat)).targetsCsv
        = none ↔ targAbsent (⟨some ⟨none, some [("A", (1:Nat))]⟩⟩ : Dataset Nat) = true) ∧
    ((export_features_targets (⟨some ⟨none, some [("A", (1:Nat))]⟩⟩ : Dataset Nat)).combinedCsv
        = none ↔ (featAbsent (⟨some ⟨none, some [("A", (1:Nat))]⟩⟩ : Dataset Nat) = true
          ∨ targAbsent (⟨some ⟨none, some [("A", (1:Nat))]⟩⟩ : Dataset Nat) = true)) ∧
    ((featAbsent (⟨some ⟨none, some [("A", (1:Nat))]⟩⟩ : Dataset Nat) = true
        ∨ targAbsent (⟨some ⟨none, some [("A", (1:Nat))]⟩⟩ : Dataset Nat) = true) →
      ∃ m ∈ (export_features_targets (⟨some ⟨none, some [("A", (1:Nat))]⟩⟩ : Dataset Nat)).logs,
        isDiagnostic m = true) :=
  export_features_targets_skips (⟨some ⟨none, some [("A", (1:Nat))]⟩⟩ : Dataset Nat)

/-! ### src/class_stats.py -/

/-- The pandas dtypes a `read_csv` table can carry here. -/
inductive Dtype
  | object
  | int64
  | float64
deriving DecidableEq

/-- A column with its pandas dtype; `none` cells are NaN. -/
structure ColumnC (α : Type) where
  dtype : Dtype
  values : List (Option α)
deriving DecidableEq

abbrev ClassFrame (α : Type) := List (String × ColumnC α)

/-- `Series.nunique()`: the number of distinct non-missing values. -/
def nuniqueC {α : Type} [DecidableEq α] (c : ColumnC α) : Nat :=
  (c.values.filterMap id).dedup.length

/-- The classification test of `class_stats.main`: object dtype, or an
int64/float64 dtype with at most 10 distinct values. -/
def isCategoricalCol {α : Type} [DecidableEq α] (c : ColumnC α) : Bool :=
  c.dtype == .object ||
    ((c.dtype == .int64 || c.dtype == .float64) && decide (nuniqueC c ≤ 10))

/-- `categorical_cols` after the removal of the target column. -/
def categoricalCols {α : Type} [DecidableEq α] (df : ClassFrame α) : List String :=
  ((df.filter (fun p => isCategoricalCol p.2)).map Prod.fst).erase "Diabetes_binary"

/-- `value_counts()`: one (value, count) pair per distinct non-missing value,
in decreasing order of count. -/
def valueCounts {α : Type} [DecidableEq α] (vs : List (Option α)) :
    List (α × Nat) :=
  let xs := vs.filterMap id
  List.insertionSort (fun a b => b.2 ≤ a.2) (xs.dedup.map (fun v => (v, xs.count v)))

/-- Python's `round` (half to even) at the integer level. -/
def roundHalfEven (q : ℚ) : ℚ :=
  let f := ⌊q⌋
  let r := q - (f : ℚ)
  if r < 1/2 then (f : ℚ)
  else if 1/2 < r then (f : ℚ) + 1
  else if f % 2 = 0 then (f : ℚ) else (f : ℚ) + 1

/-- `round(x, 2)`. -/
def round2 (q : ℚ) : ℚ := roundHalfEven (q * 100) / 100

/-- A row of `class_stats.csv`. -/
structure StatRow (α : Type) where
  variableName : String
  category : α
  count : Nat
  percentage : ℚ
deriving DecidableEq

def getColC {α : Type} (df : ClassFrame α) (c : String) : ColumnC α :=
  match df.find? (fun p => p.1 == c) with
  | some p => p.2
  | none => ⟨.object, []⟩

/-- The `csv_data` accumulation loop of `class_stats.main`. -/
def classStatsData {α : Type} [DecidableEq α] (df : ClassFrame α) :
    List (StatRow α) :=
  (categoricalCols df).flatMap (fun colName =>
    let counts := valueCounts (getColC df colName).values
    let total := (counts.map Prod.snd).sum
    counts.map (fun p => ⟨colName, p.1, p.2, round2 ((p.2 : ℚ) / (total : ℚ) * 100)⟩))

/-- C5 (amended): a non-target column is classified categorical iff its
dtype is object, or int64/float64 with at most 10 distinct values; the
target column `Diabetes_binary` is always excluded; and every classified
column with at least one non-missing value gets frequency rows whose counts
are the value frequencies. -/
theorem class_stats_classification {α : Type} [DecidableEq α] (df : ClassFrame α)
    (hnd : (df.map Prod.fst).Nodup) :
    (∀ p ∈ df, p.1 ≠ "Diabetes_binary" →
      (p.1 ∈ categoricalCols df ↔ isCategoricalCol p.2 = true)) ∧
    ("Diabetes_binary" ∉ categoricalCols df) ∧
    (∀ c ∈ categoricalCols df, 1 ≤ nuniqueC (getColC df c) →
      ∃ r ∈ classStatsData df, r.variableName = c ∧
        r.count = ((getColC df c).values.filterMap id).count r.category) := by
  have hinj := List.inj_on_of_nodup_map hnd
  have hndfilter : ((df.filter (fun p => isCategoricalCol p.2)).map Prod.fst).Nodup :=
    hnd.sublist (List.Sublist.map Prod.fst (List.filter_sublist df))
  refine ⟨?_, ?_, ?_⟩
  · intro p hp hne
    unfold categoricalCols
    rw [List.mem_erase_of_ne hne]
    constructor
    · intro hmem
      obtain ⟨q, hq, hq1⟩ := List.mem_map.mp hmem
      have hq' := List.mem_filter.mp hq
      have hqp : q = p := hinj hq'.1 hp hq1
      exact hqp ▸ hq'.2
    · intro hcat
      exact List.mem_map_of_mem Prod.fst (List.mem_filter.mpr ⟨hp, hcat⟩)
  · exact List.Nodup.not_mem_erase hndfilter
  · intro c hc hn
    have hlen : (valueCounts (getColC df c).values).length
        = nuniqueC (getColC df c) := by
      unfold valueCounts nuniqueC
      rw [List.length_insertionSort, List.length_map]
    have hcne : valueCounts (getColC df c).values ≠ [] := by
      intro hempty
      rw [hempty] at hlen
      simp at hlen
      omega
    obtain ⟨pr, hpr⟩ := List.exists_mem_of_ne_nil _ hcne
    have hpr' : pr ∈ (((getColC df c).values.filterMap id).dedup.map
        (fun v => (v, ((getColC df c).values.filterMap id).count v))) :=
      (List.perm_insertionSort _ _).mem_iff.mp hpr
    obtain ⟨v, hv, hveq⟩ := List.mem_map.mp hpr'
    refine ⟨_, List.mem_flatMap.mpr ⟨c, hc, List.mem_map_of_mem _ hpr⟩, rfl, ?_⟩
    rw [← hveq]

/-- Counterexample for C5 as stated: a column named `Diabetes_binary` is
classified categorical by the rule, but no frequency table is computed for
it (the script removes the target column). -/
theorem class_stats_counterexample :
    isCategoricalCol (⟨Dtype.int64, [some (0:Nat), some 1]⟩ : ColumnC Nat) = true ∧
    classStatsData [("Diabetes_binary",
      (⟨Dtype.int64, [some (0:Nat), some 1]⟩ : ColumnC Nat))] = [] := by
  decide

/-- Witness for C5 (amended) at a concrete one-column frame. -/
theorem class_stats_classification_witness :
    (∀ p ∈ ([("HighBP", ⟨Dtype.int64, [some (1:Nat), some 0, some 1]⟩)] :
        ClassFrame Nat), p.1 ≠ "Diabetes_binary" →
      (p.1 ∈ categoricalCols
          [("HighBP", (⟨Dtype.int64, [some (1:Nat), some 0, some 1]⟩ : ColumnC Nat))]
        ↔ isCategoricalCol p.2 = true)) ∧
    ("Diabetes_binary" ∉ categoricalCols
      [("HighBP", (⟨Dtype.int64, [some (1:Nat), some 0, some 1]⟩ : ColumnC Nat))]) ∧
    (∀ c ∈ categoricalCols
        [("HighBP", (⟨Dtype.int64, [some (1:Nat), some 0, some 1]⟩ : ColumnC Nat))],
      1 ≤ nuniqueC (getColC
        [("HighBP", (⟨Dtype.int64, [some (1:Nat), some 0, some 1]⟩ : ColumnC Nat))] c) →
      ∃ r ∈ classStatsData
        [("HighBP", (⟨Dtype.int64, [some (1:Nat), some 0, some 1]⟩ : ColumnC Nat))],
        r.variableName = c ∧
        r.count = ((getColC
          [("HighBP", (⟨Dtype.int64, [some (1:Nat), some 0, some 1]⟩ : ColumnC Nat))]
          c).values.filterMap id).count r.category) :=
  class_stats_classification
    [("HighBP", (⟨Dtype.int64, [some (1:Nat), some 0, some 1]⟩ : ColumnC Nat))]
    (by decide)

/-! ### src/normality_test.py and src/mann_whitney_test.py

The scipy calls (`shapiro`, `mannwhitneyu`) are library functions, not part
of this repository; they are modelled as oracles returning a
(statistic, p-value) pair, and the theorems hold for every oracle. -/

/-- The fixed continuous-variable list of both test scripts. -/
def continuous_vars : List String := ["BMI", "MentHlth", "PhysHlth"]

/-- `dropna()` of a column. -/
def dropna (s : Col) : List ℚ := s.filterMap id

/-- A result row of `normality_test.csv`. -/
structure NormRow where
  variableName : String
  statistic : ℚ
  pvalue : ℚ
  normality : Bool
deriving DecidableEq

/-- One iteration of the result loop of `normality_test.main`: skip the
column when fewer than 3 non-missing values remain, else one Shapiro-Wilk
row with `Normality = (p > 0.05)`. -/
def normRowFor (shapiro : List ℚ → ℚ × ℚ) (df : Frame) (v : String) :
    Option NormRow :=
  if (dropna (getCol df v)).length < 3 then none
  else some ⟨v, (shapiro (dropna (getCol df v))).1,
    (shapiro (dropna (getCol df v))).2,
    decide ((shapiro (dropna (getCol df v))).2 > 1/20)⟩

/-- The result rows of `normality_test.main`. -/
def normalityResults (shapiro : List ℚ → ℚ × ℚ) (df : Frame) : List NormRow :=
  (continuous_vars.filter (fun v => hasCol df v)).filterMap (normRowFor shapiro df)

/-- A result row of `mann_whitney_test.csv`. -/
structure MWRow where
  variableName : String
  uStat : ℚ
  pvalue : ℚ
  significant : Bool
deriving DecidableEq

/-- The values of column `s` on the rows where the grouping column equals
`g` (`df[df['Diabetes_binary'] == g][var].dropna()`). -/
def groupVals (db : Col) (s : Col) (g : ℚ) : List ℚ :=
  (db.zip s).filterMap (fun p => if p.1 = some g then p.2 else none)

/-- One iteration of the result loop of `mann_whitney_test.main`: skip the
column when either group is empty, else one Mann-Whitney U row comparing the
`Diabetes_binary = 0` group with the `= 1` group, with
`Significant = (p < 0.05)`. -/
def mwRowFor (mwu : List ℚ → List ℚ → ℚ × ℚ) (df : Frame) (v : String) :
    Option MWRow :=
  if (groupVals (getCol df "Diabetes_binary") (getCol df v) 0).length < 1
      ∨ (groupVals (getCol df "Diabetes_binary") (getCol df v) 1).length < 1
  then none
  else some ⟨v,
    (mwu (groupVals (getCol df "Diabetes_binary") (getCol df v) 0)
      (groupVals (getCol df "Diabetes_binary") (getCol df v) 1)).1,
    (mwu (groupVals (getCol df "Diabetes_binary") (getCol df v) 0)
      (groupVals (getCol df "Diabetes_binary") (getCol df v) 1)).2,
    decide ((mwu (groupVals (getCol df "Diabetes_binary") (getCol df v) 0)
      (groupVals (getCol df "Diabetes_binary") (getCol df v) 1)).2 < 1/20)⟩

/-- The result rows of `mann_whitney_test.main`; `none` models the KeyError
raised when the `Diabetes_binary` column is absent. -/
def mannWhitneyResults (mwu : List ℚ → List ℚ → ℚ × ℚ) (df : Frame) :
    Option (List MWRow) :=
  if hasCol df "Diabetes_binary" then
    some ((continuous_vars.filter (fun v => hasCol df v)).filterMap
      (mwRowFor mwu df))
  else none

/-- C6: in both test scripts the boolean classification column is determined
solely by comparing the test's p-value with 0.05: `Normality` iff
`p > 0.05`, `Significant` iff `p < 0.05`, whatever the statistical oracle
returned. -/
theorem p_value_thresholds (shapiro : List ℚ → ℚ × ℚ)
    (mwu : List ℚ → List ℚ → ℚ × ℚ) (df : Frame) :
    (∀ r ∈ normalityResults shapiro df, (r.normality = true ↔ r.pvalue > 1/20)) ∧
    (∀ rs, mannWhitneyResults mwu df = some rs →
      ∀ r ∈ rs, (r.significant = true ↔ r.pvalue < 1/20)) := by
  constructor
  · intro r hr
    obtain ⟨v, hv, hveq⟩ := List.mem_filterMap.mp hr
    unfold normRowFor at hveq
    by_cases hlen : (dropna (getCol df v)).length < 3
    · rw [if_pos hlen] at hveq
      cases hveq
    · rw [if_neg hlen] at hveq
      obtain rfl := Option.some.inj hveq
      simp
  · intro rs hrs r hr
    unfold mannWhitneyResults at hrs
    by_cases hdb : hasCol df "Diabetes_binary" = true
    · rw [if_pos hdb] at hrs
      obtain rfl := Option.some.inj hrs
      obtain ⟨v, hv, hveq⟩ := List.mem_filterMap.mp hr
      unfold mwRowFor at hveq
      by_cases hlen : (groupVals (getCol df "Diabetes_binary") (getCol df v) 0).length < 1
          ∨ (groupVals (getCol df "Diabetes_binary") (getCol df v) 1).length < 1
      · rw [if_pos hlen] at hveq
        cases hveq
      · rw [if_neg hlen] at hveq
        obtain rfl := Option.some.inj hveq
        simp
    · rw [if_neg hdb] at hrs
      cases hrs

/-- Witness for C6 at a concrete frame and concrete oracles. -/
theorem p_value_thresholds_witness :
    (∀ r ∈ normalityResults (fun _ => (9/10, 1/10))
        [("BMI", [some 1, some 2, some 3, some 4]),
          ("Diabetes_binary", [some 0, some 1, some 0, some 1])],
      (r.normality = true ↔ r.pvalue > 1/20)) ∧
    (∀ rs, mannWhitneyResults (fun _ _ => (2, 1/50))
        [("BMI", [some 1, some 2, some 3, some 4]),
          ("Diabetes_binary", [some 0, some 1, some 0, some 1])] = some rs →
      ∀ r ∈ rs, (r.significant = true ↔ r.pvalue < 1/20)) :=
  p_value_thresholds (fun _ => (9/10, 1/10)) (fun _ _ => (2, 1/50))
    [("BMI", [some 1, some 2, some 3, some 4]),
      ("Diabetes_binary", [some 0, some 1, some 0, some 1])]

theorem filter_key_filterMap {β : Type} (key : β → String) (f : String → Option β)
    (hkey : ∀ x r, f x = some r → key r = x) (v : String) :
    ∀ l : List String, l.Nodup →
      (l.filterMap f).filter (fun r => key r == v)
        = if v ∈ l then (f v).toList else [] := by
  intro l
  induction l with
  | nil => simp
  | cons x xs ih =>
    intro hnd
    simp only [List.nodup_cons] at hnd
    rw [List.filterMap_cons]
    cases hfx : f x with
    | none =>
      rw [ih hnd.2]
      by_cases hvx : v = x
      · subst hvx
        rw [if_neg hnd.1, if_pos (List.mem_cons_self v xs), hfx]
        rfl
      · simp [List.mem_cons, hvx]
    | some r =>
      have hkr : key r = x := hkey x r hfx
      rw [List.filter_cons]
      by_cases hvx : v = x
      · subst hvx
        rw [show (key r == v) = true from by simp [hkr]]
        rw [ih hnd.2, if_neg hnd.1, if_pos (List.mem_cons_self v xs), hfx]
        rfl
      · have hne : (key r == v) = false := by
          simp only [beq_eq_false_iff_ne, hkr]
          exact fun h => hvx h.symm
        rw [hne, ih hnd.2]
        simp [List.mem_cons, hvx]

/-- C7 (amended): for every column of the fixed continuous list present in
the input, each test script produces the rows of its per-column test
invocation: exactly one row for the column when its data passes the
sufficiency check (at least 3 non-missing values for Shapiro-Wilk; both
`Diabetes_binary` groups non-empty for Mann-Whitney U), and no row
otherwise. -/
theorem one_result_row_per_column (shapiro : List ℚ → ℚ × ℚ)
    (mwu : List ℚ → List ℚ → ℚ × ℚ) (df : Frame) (v : String)
    (hv : v ∈ continuous_vars) (hcol : hasCol df v = true) :
    ((normalityResults shapiro df).filter (fun r => r.variableName == v)
        = (normRowFor shapiro df v).toList) ∧
    (∀ rs, mannWhitneyResults mwu df = some rs →
      rs.filter (fun r => r.variableName == v) = (mwRowFor mwu df v).toList) ∧
    (3 ≤ (dropna (getCol df v)).length →
      (normalityResults shapiro df).filter (fun r => r.variableName == v)
        = [⟨v, (shapiro (dropna (getCol df v))).1,
            (shapiro (dropna (getCol df v))).2,
            decide ((shapiro (dropna (getCol df v))).2 > 1/20)⟩]) ∧
    ((dropna (getCol df v)).length < 3 →
      (normalityResults shapiro df).filter (fun r => r.variableName == v) = []) := by
  have hndfilter : (continuous_vars.filter (fun x => hasCol df x)).Nodup :=
    List.Nodup.filter _ (by decide)
  have hmem : v ∈ continuous_vars.filter (fun x => hasCol df x) :=
    List.mem_filter.mpr ⟨hv, hcol⟩
  have hkeyN : ∀ x r, normRowFor shapiro df x = some r → r.variableName = x := by
    intro x r hxr
    unfold normRowFor at hxr
    by_cases hlen : (dropna (getCol df x)).length < 3
    · rw [if_pos hlen] at hxr
      cases hxr
    · rw [if_neg hlen] at hxr
      obtain rfl := Option.some.inj hxr
      rfl
  have hkeyM : ∀ x r, mwRowFor mwu df x = some r → r.variableName = x := by
    intro x r hxr
    unfold mwRowFor at hxr
    by_cases hlen : (groupVals (getCol df "Diabetes_binary") (getCol df x) 0).length < 1
        ∨ (groupVals (getCol df "Diabetes_binary") (getCol df x) 1).length < 1
    · rw [if_pos hlen] at hxr
      cases hxr
    · rw [if_neg hlen] at hxr
      obtain rfl := Option.some.inj hxr
      rfl
  have hmain : (normalityResults shapiro df).filter (fun r => r.variableName == v)
      = (normRowFor shapiro df v).toList := by
    unfold normalityResults
    rw [filter_key_filterMap (fun r => r.variableName) (normRowFor shapiro df)
      hkeyN v _ hndfilter, if_pos hmem]
  refine ⟨hmain, ?_, ?_, ?_⟩
  · intro rs hrs
    unfold mannWhitneyResults at hrs
    by_cases hdb : hasCol df "Diabetes_binary" = true
    · rw [if_pos hdb] at hrs
      obtain rfl := Option.some.inj hrs
      rw [filter_key_filterMap (fun r => r.variableName) (mwRowFor mwu df)
        hkeyM v _ hndfilter, if_pos hmem]
    · rw [if_neg hdb] at hrs
      cases hrs
  · intro hge
    rw [hmain]
    unfold normRowFor
    rw [if_neg (Nat.not_lt.mpr hge)]
    rfl
  · intro hlt
    rw [hmain]
    unfold normRowFor
    rw [if_pos hlt]
    rfl

/-- Counterexample for C7 as stated: `BMI` is present but has fewer than 3
non-missing values, so `normality_test` produces no result row for it. -/
theorem one_result_row_counterexample :
    hasCol [("BMI", [some 1, some 2])] "BMI" = true ∧
    normalityResults (fun _ => (0, 0)) [("BMI", [some 1, some 2])] = [] := by
  decide

/-- Witness for C7 (amended) at a concrete frame and concrete oracles. -/
theorem one_result_row_per_column_witness :
    ((normalityResults (fun _ => (9/10, 1/10))
        [("BMI", [some 1, some 2, some 3, some 4]),
          ("Diabetes_binary", [some 0, some 1, some 0, some 1])]).filter
        (fun r => r.variableName == "BMI")
      = (normRowFor (fun _ => (9/10, 1/10))
          [("BMI", [some 1, some 2, some 3, some 4]),
            ("Diabetes_binary", [some 0, some 1, some 0, some 1])] "BMI").toList) ∧
    (∀ rs, mannWhitneyResults (fun _ _ => (2, 1/50))
        [("BMI", [some 1, some 2, some 3, some 4]),
          ("Diabetes_binary", [some 0, some 1, some 0, some 1])] = some rs →
      rs.filter (fun r => r.variableName == "BMI")
        = (mwRowFor (fun _ _ => (2, 1/50))
            [("BMI", [some 1, some 2, some 3, some 4]),
              ("Diabetes_binary", [some 0, some 1, some 0, some 1])] "BMI").toList) ∧
    (3 ≤ (dropna (getCol [("BMI", [some 1, some 2, some 3, some 4]),
        ("Diabetes_binary", [some 0, some 1, some 0, some 1])] "BMI")).length →
      (normalityResults (fun _ => (9/10, 1/10))
          [("BMI", [some 1, some 2, some 3, some 4]),
            ("Diabetes_binary", [some 0, some 1, some 0, some 1])]).filter
          (fun r => r.variableName == "BMI")
        = [⟨"BMI", ((fun _ => ((9:ℚ)/10, (1:ℚ)/10)) (dropna (getCol
              [("BMI", [some 1, some 2, some 3, some 4]),
                ("Diabetes_binary", [some 0, some 1, some 0, some 1])] "BMI"))).1,
            ((fun _ => ((9:ℚ)/10, (1:ℚ)/10)) (dropna (getCol
              [("BMI", [some 1, some 2, some 3, some 4]),
                ("Diabetes_binary", [some 0, some 1, some 0, some 1])] "BMI"))).2,
            decide (((fun _ => ((9:ℚ)/10, (1:ℚ)/10)) (dropna (getCol
              [("BMI", [some 1, some 2, some 3, some 4]),
                ("Diabetes_binary", [some 0, some 1, some 0, some 1])] "BMI"))).2
              > 1/20)⟩]) ∧
    ((dropna (getCol [("BMI", [some 1, some 2, some 3, some 4]),
        ("Diabetes_binary", [some 0, some 1, some 0, some 1])] "BMI")).length < 3 →
      (normalityResults (fun _ => (9/10, 1/10))
          [("BMI", [some 1, some 2, some 3, some 4]),
            ("Diabetes_binary", [some 0, some 1, some 0, some 1])]).filter
          (fun r => r.variableName == "BMI") = []) :=
  one_result_row_per_column (fun _ => (9/10, 1/10)) (fun _ _ => (2, 1/50))
    [("BMI", [some 1, some 2, some 3, some 4]),
      ("Diabetes_binary", [some 0, some 1, some 0, some 1])] "BMI"
    (by decide) (by decide)

/-! ### The input-existence prologue shared by every analysis script -/

/-- The externally visible I/O steps of an analysis-script run. -/
inductive Effect
  | mkdirOut (d : String)
  | readInput
  | writeOutput (name : String)
  | printErrMsg
  | exitWith (code : Nat)
  | printReport
deriving DecidableEq

/-- The common `main` skeleton of the analysis scripts: create the output
directories, then check that the `--input` CSV exists; if it does not, print
an error to stderr and exit with status 1 before reading data or writing any
analysis output; otherwise read the CSV and run the body, which writes the
script's outputs and prints its report; no validation of the input other
than the existence check is performed. -/
def analysisMain (outdirs : List String) (inputExists : Bool)
    (outputsOf : Unit → List String) : List Effect :=
  (outdirs.map Effect.mkdirOut) ++
    (if inputExists then
      Effect.readInput :: ((outputsOf ()).map Effect.writeOutput)
        ++ [Effect.printReport]
     else [Effect.printErrMsg, Effect.exitWith 1])

/-- The analysis scripts of the repository. -/
inductive ScriptId
  | outlier
  | classStats
  | numericStats
  | normalityTest
  | mannWhitneyTest
  | visualization
  | dataExploration
deriving DecidableEq

/-- The directories each script creates before the existence check. -/
def scriptOutdirs : ScriptId → List String
  | .outlier => ["output"]
  | .classStats => ["output"]
  | .numericStats => ["output"]
  | .normalityTest => ["output"]
  | .mannWhitneyTest => ["output"]
  | .visualization => ["figs/univariate", "figs/multivariate"]
  | .dataExploration => []

/-- A run of one analysis script; `outputsOf` abstracts the data-dependent
body (which files it writes once the input was read). -/
def scriptRun (s : ScriptId) (inputExists : Bool)
    (outputsOf : Unit → List String) : List Effect :=
  analysisMain (scriptOutdirs s) inputExists outputsOf

/-- C8: for every analysis script, when the `--input` CSV does not exist the
run is exactly the directory creation followed by a stderr message and
`sys.exit(1)` - no read of the data and no analysis output - and when it
exists the script reads it and never calls `sys.exit`, whatever the data
contains: existence is the only validation performed on the input. -/
theorem input_existence_check (s : ScriptId) (outputsOf : Unit → List String) :
    (scriptRun s false outputsOf
      = ((scriptOutdirs s).map Effect.mkdirOut)
          ++ [Effect.printErrMsg, Effect.exitWith 1]) ∧
    (Effect.readInput ∉ scriptRun s false outputsOf) ∧
    (∀ n, Effect.writeOutput n ∉ scriptRun s false outputsOf) ∧
    (∀ c, Effect.exitWith c ∉ scriptRun s true outputsOf) ∧
    (Effect.readInput ∈ scriptRun s true outputsOf) := by
  refine ⟨rfl, ?_, ?_, ?_, ?_⟩
  · intro hmem
    unfold scriptRun analysisMain at hmem
    rcases List.mem_append.mp hmem with h | h
    · obtain ⟨d, -, hd⟩ := List.mem_map.mp h
      cases hd
    · simp at h
  · intro n hmem
    unfold scriptRun analysisMain at hmem
    rcases List.mem_append.mp hmem with h | h
    · obtain ⟨d, -, hd⟩ := List.mem_map.mp h
      cases hd
    · simp at h
  · intro c hmem
    unfold scriptRun analysisMain at hmem
    rcases List.mem_append.mp hmem with h | h
    · obtain ⟨d, -, hd⟩ := List.mem_map.mp h
      cases hd
    · rw [if_pos rfl] at h
      rcases List.mem_cons.mp h with h | h
      · cases h
      · rcases List.mem_append.mp h with h | h
        · obtain ⟨d, -, hd⟩ := List.mem_map.mp h
          cases hd
        · simp at h
  · unfold scriptRun analysisMain
    rw [if_pos rfl]
    exact List.mem_append.mpr (Or.inr (List.mem_cons_self _ _))

/-- Witness for C8 at the outlier script with its concrete output files. -/
theorem input_existence_check_witness :
    (scriptRun ScriptId.outlier false (fun _ => ["outliers_flagged.csv",
        "outliers_summary.csv", "outliers_indices.csv", "outliers_meta.json"])
      = ((scriptOutdirs ScriptId.outlier).map Effect.mkdirOut)
          ++ [Effect.printErrMsg, Effect.exitWith 1]) ∧
    (Effect.readInput ∉ scriptRun ScriptId.outlier false
      (fun _ => ["outliers_flagged.csv", "outliers_summary.csv",
        "outliers_indices.csv", "outliers_meta.json"])) ∧
    (∀ n, Effect.writeOutput n ∉ scriptRun ScriptId.outlier false
      (fun _ => ["outliers_flagged.csv", "outliers_summary.csv",
        "outliers_indices.csv", "outliers_meta.json"])) ∧
    (∀ c, Effect.exitWith c ∉ scriptRun ScriptId.outlier true
      (fun _ => ["outliers_flagged.csv", "outliers_summary.csv",
        "outliers_indices.csv", "outliers_meta.json"])) ∧
    (Effect.readInput ∈ scriptRun ScriptId.outlier true
      (fun _ => ["outliers_flagged.csv", "outliers_summary.csv",
        "outliers_indices.csv", "outliers_meta.json"])) :=
  input_existence_check ScriptId.outlier (fun _ => ["outliers_flagged.csv",
    "outliers_summary.csv", "outliers_indices.csv", "outliers_meta.json"])

end BioStat
